import Mathlib

/-!
Verification development for the vocabulary backend (Express + Supabase +
Gemini).  The definitions below are a shallow embedding of the JavaScript
source: `src/unnamed/part_000` (the bulk-insert route with AI grouping and
sentence generation, its helper `getGroupNamesAndSentences`, and the groups
view) and `src/server.js` (the chunking variant of the bulk route).
External collaborators (the Supabase store, the Gemini text generator and
the host JSON parser) are passed in as parameters, mirroring the fact that
they are opaque to this repository's code.
-/

set_option autoImplicit false
set_option linter.unnecessarySeqFocus false

namespace Words

/-- JavaScript/JSON values, as produced by `JSON.parse` and handled by the
untyped route code.  `jnull` also stands for `undefined` where the two are
indistinguishable to the source (both falsy, both unequal to any string
under `===`, both persisted as SQL NULL). -/
inductive JVal where
  | jnull : JVal
  | jbool : Bool → JVal
  | jnum : Int → JVal
  | jstr : String → JVal
  | jarr : List JVal → JVal
  | jobj : List (String × JVal) → JVal
  deriving Repr, BEq

/-- JavaScript truthiness, used by `.filter(Boolean)` on fetched
`group_name` values. -/
def jsTruthy : JVal → Bool
  | .jnull => false
  | .jbool b => b
  | .jnum n => n != 0
  | .jstr s => s != ""
  | .jarr _ => true
  | .jobj _ => true

/-- `pat` is a prefix of `s`, on character lists. -/
def charsStartWith : List Char → List Char → Bool
  | [], _ => true
  | _ :: _, [] => false
  | p :: ps, c :: cs => p == c && charsStartWith ps cs

/-- `pat` occurs contiguously somewhere in `s`, on character lists. -/
def charsContain (s pat : List Char) : Bool :=
  match s with
  | [] => pat.isEmpty
  | _ :: cs => charsStartWith pat s || charsContain cs pat

/-- JavaScript `String.prototype.includes`: `s.includes(pat)` holds iff
`pat` occurs in `s` as a contiguous substring. -/
def jsIncludes (s pat : String) : Bool :=
  charsContain s.data pat.data

/-- Look a key up in the field list of a parsed JSON object; a missing
field reads as `undefined` (`jnull` here). -/
def lookupField : List (String × JVal) → String → JVal
  | [], _ => .jnull
  | (k, v) :: rest, key => if k == key then v else lookupField rest key

/-- JavaScript property access `v.key` on a non-null value: objects look
the field up, other non-null primitives yield `undefined`. -/
def objField (v : JVal) (key : String) : JVal :=
  match v with
  | .jobj fs => lookupField fs key
  | _ => .jnull

/-- `[...new Set(xs)]`: deduplicate keeping the first occurrence of each
value, preserving insertion order. -/
def jsDedup (xs : List JVal) : List JVal :=
  xs.foldl (fun acc v => if acc.contains v then acc else acc ++ [v]) []

/-- JavaScript `assignments.length > 0`.  Arrays and strings have a
numeric `.length`; on objects, numbers and booleans `.length` is
`undefined` and `undefined > 0` is `false`.  (The `null` case, where the
access itself throws, is handled separately in `bulkHandler`.) -/
def jsLengthPositive : JVal → Bool
  | .jarr xs => xs.length > 0
  | .jstr s => s.length > 0
  | _ => false

/-- The comparison `a.word === target` where `target` is known to be a
string: strict equality against a string holds only for an identical
string value. -/
def isWordMatch (v : JVal) (target : String) : Bool :=
  match v with
  | .jstr s => s == target
  | _ => false

/-- `arr.find(a => a.word === target)` over the elements of a parsed
array: returns the first element whose `word` field is the string
`target`.  Accessing `.word` on a `null` element throws a `TypeError`,
modelled as `.error`. -/
def jsFindByWord : List JVal → String → Except String (Option JVal)
  | [], _ => .ok none
  | a :: rest, target =>
    match a with
    | .jnull => .error "Cannot read properties of null"
    | _ =>
      if isWordMatch (objField a "word") target then .ok (some a)
      else jsFindByWord rest target

/-- `assignments.find(a => a.word === word.word)`: on a non-array value
(the source never checks `Array.isArray(assignments)`) the `.find` call
itself throws a `TypeError`, modelled as `.error`. -/
def jsFindAssignment (assignments : JVal) (target : String) :
    Except String (Option JVal) :=
  match assignments with
  | .jarr xs => jsFindByWord xs target
  | _ => .error "assignments.find is not a function"

/-- One element of the request body `words` array:
`{word, meaning, synonyms?}`. -/
structure NewWord where
  word : String
  meaning : String
  synonyms : Option (List String)
  deriving Repr, DecidableEq

/-- A row of the `vocabulary` table as built by the bulk route's insert:
`{word, meaning, synonyms: word.synonyms || [], group_name, sentence}`.
The two enrichment-derived fields hold whatever JS value the assignment
lookup produced. -/
structure Entry where
  word : String
  meaning : String
  synonyms : List String
  group_name : JVal
  sentence : JVal
  deriving Repr, BEq

/-- The `error` object of a Supabase reply: the route inspects
`error.code` and `error.message`. -/
structure StoreError where
  code : String
  message : String
  deriving Repr, DecidableEq

/-- The `{ data, error }` reply of `supabase.from('vocabulary').insert([...]).select()`.
`data` is `null` or a list of persisted rows. -/
structure InsertResult where
  error : Option StoreError
  data : Option (List Entry)
  deriving Repr, BEq

/-- Outcome of one awaited insert call: either a structured reply or a
thrown exception (caught by the per-word `catch (err)`). -/
inductive InsertOutcome where
  | result : InsertResult → InsertOutcome
  | thrown : String → InsertOutcome
  deriving Repr, BEq

/-- The Gemini response-cleanup of `getGroupNamesAndSentences`:
`.replace(/```json\n?/g, '').replace(/```\n?/g, '').trim()`.  Each regex
with an optional trailing newline is embedded as two sequential global
replaces (first the form with the newline, then the bare form). -/
def cleanUpResponse (s : String) : String :=
  (((((s.replace "```json\n" "").replace "```json" "").replace "```\n" "").replace "```" "")).trim

/-- The catch-branch fallback of `getGroupNamesAndSentences`:
`newWords.map(w => ({ word: w.word, group_name: null, sentence: null }))`. -/
def fallbackAssignments (newWords : List NewWord) : JVal :=
  .jarr (newWords.map fun w =>
    .jobj [("word", .jstr w.word), ("group_name", .jnull), ("sentence", .jnull)])

/-- `getGroupNamesAndSentences(newWords, existingGroups)`.  The prompt is
pure string formatting over `newWords` and `existingGroups`, so the
awaited `model.generateContent(prompt) …​ response.text()` pipeline is
modelled as the oracle `gen` applied to those two inputs (`none` = the
call threw); `JSON.parse` is the host oracle `parse` (`none` = parse
threw).  Any throw lands in the catch branch, which returns the total
fallback.  A successful parse is returned verbatim, array or not. -/
def getGroupNamesAndSentences
    (gen : List NewWord → List JVal → Option String)
    (parse : String → Option JVal)
    (newWords : List NewWord) (existingGroups : List JVal) : JVal :=
  match gen newWords existingGroups with
  | none => fallbackAssignments newWords
  | some responseText =>
    match parse (cleanUpResponse responseText) with
    | none => fallbackAssignments newWords
    | some assignments => assignments

/-- Step 1 of the bulk route: rows of
`select('group_name').not('group_name','is',null)`, then
`existingGroupsData ? [...new Set(existingGroupsData.map(item => item.group_name).filter(Boolean))] : []`.
`groupsRead = none` models a failed read (`data` null): the error is only
logged and the empty list is used. -/
def extractExistingGroups (groupsRead : Option (List JVal)) : List JVal :=
  match groupsRead with
  | none => []
  | some rows => jsDedup ((rows.map (fun item => objField item "group_name")).filter jsTruthy)

/-- One element of `results.errors`: `{ word, error }`. -/
structure ErrRec where
  word : String
  error : String
  deriving Repr, DecidableEq

/-- The accumulator `results = { added: [], skipped: [], errors: [] }`. -/
structure BatchResults where
  added : List Entry
  skipped : List String
  errors : List ErrRec
  deriving Repr, BEq

/-- The row handed to `insert([...])` for one word, after the assignment
lookup: group and sentence come from the found assignment object, or are
null when no assignment matched. -/
def builtEntry (found : Option JVal) (w : NewWord) : Entry :=
  { word := w.word
  , meaning := w.meaning
  , synonyms := w.synonyms.getD []
  , group_name := match found with | some a => objField a "group_name" | none => .jnull
  , sentence := match found with | some a => objField a "sentence" | none => .jnull }

/-- Classification of one insert outcome (lines 145–162 of the source):
a reply with an error whose `code === '23505'` or whose message contains
`'duplicate'` goes to `skipped`; any other error, and any thrown
exception, goes to `errors`; a reply with no error and a non-empty `data`
appends `data[0]` to `added`; no error with null or empty `data` appends
nothing. -/
def classifyInsert (w : String) (acc : BatchResults) (out : InsertOutcome) : BatchResults :=
  match out with
  | .thrown msg => { acc with errors := acc.errors ++ [⟨w, msg⟩] }
  | .result r =>
    match r.error with
    | some e =>
      if e.code == "23505" || jsIncludes e.message "duplicate" then
        { acc with skipped := acc.skipped ++ [w] }
      else
        { acc with errors := acc.errors ++ [⟨w, e.message⟩] }
    | none =>
      match r.data with
      | some (d :: _) => { acc with added := acc.added ++ [d] }
      | _ => acc

/-- The body of `for (const word of words)`: look the assignment up (a
throwing `.find` is caught by the per-word `catch` and recorded in
`errors` without touching the store), build the row, insert it through
the store oracle, and classify.  `σ` is the store state. -/
def processWord {σ : Type} (store : Entry → σ → InsertOutcome × σ)
    (assignments : JVal) (w : NewWord) (acc : BatchResults) (st : σ) :
    BatchResults × σ :=
  match jsFindAssignment assignments w.word with
  | .error msg => ({ acc with errors := acc.errors ++ [⟨w.word, msg⟩] }, st)
  | .ok found =>
    let (out, st1) := store (builtEntry found w) st
    (classifyInsert w.word acc out, st1)

/-- The whole per-word loop, threading the accumulator and store state. -/
def processWords {σ : Type} (store : Entry → σ → InsertOutcome × σ)
    (assignments : JVal) (words : List NewWord) (p : BatchResults × σ) :
    BatchResults × σ :=
  words.foldl (fun q w => processWord store assignments w q.1 q.2) p

/-- Step 3 of the bulk route, starting from empty result lists. -/
def processBatch {σ : Type} (store : Entry → σ → InsertOutcome × σ)
    (assignments : JVal) (words : List NewWord) (st : σ) :
    BatchResults × σ :=
  processWords store assignments words (⟨[], [], []⟩, st)

/-- The 201 response body of `POST /api/vocabulary/bulk`. -/
structure BulkResponse where
  totalSent : Nat
  addedCount : Nat
  skippedCount : Nat
  errorCount : Nat
  aiProcessingUsed : Bool
  added : List Entry
  skipped : List String
  errors : List ErrRec
  deriving Repr, BEq

/-- The possible replies of the bulk route: 400 on malformed input, 500
from the outer catch, or the 201 response. -/
inductive BulkReply where
  | badRequest : BulkReply
  | serverError : String → BulkReply
  | ok : BulkResponse → BulkReply
  deriving Repr, BEq

/-- `POST /api/vocabulary/bulk` of `src/unnamed/part_000`.  The request
body's `words` arrives as a typed list, so of the validation
`!Array.isArray(words) || words.length === 0` only the emptiness check
remains.  The one statement of the response assembly that can throw is
`assignments.length` when `assignments` is `null` (a parsed top-level
JSON `null`); that lands in the outer catch as a 500.  The outer
try/catch around the `getGroupNamesAndSentences` call never fires, since
the helper catches its own failures. -/
def bulkHandler {σ : Type}
    (gen : List NewWord → List JVal → Option String)
    (parse : String → Option JVal)
    (store : Entry → σ → InsertOutcome × σ)
    (groupsRead : Option (List JVal))
    (words : List NewWord) (st : σ) : BulkReply × σ :=
  if words.isEmpty then (.badRequest, st)
  else
    let existingGroups := extractExistingGroups groupsRead
    let assignments := getGroupNamesAndSentences gen parse words existingGroups
    let (results, st1) := processBatch store assignments words st
    match assignments with
    | .jnull => (.serverError "Cannot read properties of null", st1)
    | _ =>
      (.ok { totalSent := words.length
           , addedCount := results.added.length
           , skippedCount := results.skipped.length
           , errorCount := results.errors.length
           , aiProcessingUsed := jsLengthPositive assignments
           , added := results.added
           , skipped := results.skipped
           , errors := results.errors }, st1)

/-- A store that satisfies the Store Gateway contract of the design: the
state is the list of persisted rows, `word` is the unique key, inserting
a present word yields the Postgres unique-constraint violation (code
23505) and inserting an absent word persists it and echoes the row. -/
def idealInsert (e : Entry) (st : List Entry) : InsertOutcome × List Entry :=
  if st.any (fun e2 => e2.word == e.word) then
    (.result ⟨some ⟨"23505", "duplicate key value violates unique constraint"⟩, none⟩, st)
  else
    (.result ⟨none, some [e]⟩, st ++ [e])

/-! ### The chunking variant (`src/server.js`) -/

/-- The 201 response of the chunking bulk route. -/
structure ChunkResponse (α : Type) where
  batchSize : Nat
  totalProcessed : Nat
  totalWords : Nat
  hasMore : Bool
  nextOffset : Option Nat
  data : List α
  deriving Repr, BEq

/-- Replies of the chunking bulk route: 400 on malformed input or on an
insert error, the "no more words" 200, or the 201 response. -/
inductive ChunkReply (α : Type) where
  | badRequest : ChunkReply α
  | noMore : Nat → ChunkReply α
  | insertError : String → ChunkReply α
  | ok : ChunkResponse α → ChunkReply α
  deriving Repr, BEq

/-- `POST /api/vocabulary/bulk` of `src/server.js`: slice
`words.slice(offset, offset + 50)`, return the completed 200 when the
slice is empty, otherwise insert the whole slice through the store
oracle `ins` (`none` = the insert reported an error, surfaced as 400)
and answer with the continuation cursor:
`newOffset = offset + batch.length`, `hasMore = newOffset < words.length`,
`nextOffset = hasMore ? newOffset : null`. -/
def chunkBulk {α : Type} (ins : List α → Option (List α))
    (words : List α) (offset : Nat) : ChunkReply α :=
  if words.isEmpty then .badRequest
  else
    let batch := (words.drop offset).take 50
    if batch.isEmpty then .noMore offset
    else
      match ins batch with
      | none => .insertError "insert failed"
      | some data =>
        let newOffset := offset + batch.length
        let hasMore := decide (newOffset < words.length)
        .ok { batchSize := data.length
            , totalProcessed := newOffset
            , totalWords := words.length
            , hasMore := hasMore
            , nextOffset := if hasMore then some newOffset else none
            , data := data }

/-! ### The groups view (`GET /api/vocabulary/groups`) -/

/-- A persisted `vocabulary` row as the groups view reads it
(`select('word, meaning, synonyms, group_name, sentence')`); the
`group_name` and `sentence` columns are nullable text. -/
structure DbRow where
  word : String
  meaning : String
  synonyms : List String
  group_name : Option String
  sentence : Option String
  deriving Repr, DecidableEq

/-- The projection pushed into a group:
`{word, meaning, synonyms, sentence}`. -/
structure GroupItem where
  word : String
  meaning : String
  synonyms : List String
  sentence : Option String
  deriving Repr, DecidableEq

/-- `groups[word.group_name].push({word, meaning, synonyms, sentence})`. -/
def itemOf (r : DbRow) : GroupItem :=
  ⟨r.word, r.meaning, r.synonyms, r.sentence⟩

/-- Using `word.group_name` as a JS object key: a string is used as is, a
null would be coerced to the string "null" (unreachable behind the
query's not-null filter, but part of the loop's semantics). -/
def jsKey : Option String → String
  | some g => g
  | none => "null"

/-- One iteration of `data.forEach`: create the key's list if absent,
then push the projection onto it. -/
def addToGroups (acc : List (String × List GroupItem)) (key : String)
    (it : GroupItem) : List (String × List GroupItem) :=
  if acc.any (fun p => p.1 == key) then
    acc.map (fun p => if p.1 == key then (p.1, p.2 ++ [it]) else p)
  else
    acc ++ [(key, [it])]

/-- The grouping loop of the groups view, over the fetched rows.  The JS
object `groups` is modelled as an association list with unique keys in
first-creation order. -/
def buildGroups (rows : List DbRow) : List (String × List GroupItem) :=
  rows.foldl (fun acc r => addToGroups acc (jsKey r.group_name) (itemOf r)) []

/-- The store-side filter `.not('group_name', 'is', null)` of the groups
view's query.  The query's `order('group_name')` only permutes the rows;
the theorems below hold for every row order, so the permutation is left
out. -/
def fetchGroupRows (table : List DbRow) : List DbRow :=
  table.filter (fun r => r.group_name ≠ none)

/-- `GET /api/vocabulary/groups` on a given table state: fetch the
non-null-group rows and partition them by `group_name`. -/
def groupsView (table : List DbRow) : List (String × List GroupItem) :=
  buildGroups (fetchGroupRows table)

/-! ### Auxiliary predicates used by the statements -/

/-- The Store Gateway contract of the design (§4.1): every insert reply
is an error, a thrown exception, or a success carrying the persisted
row — never a silent no-error empty reply. -/
def contractOk : InsertOutcome → Bool
  | .thrown _ => true
  | .result r =>
    match r.error with
    | some _ => true
    | none => match r.data with
      | some (_ :: _) => true
      | _ => false

/-- A no-error insert reply whose `data` is null or empty: the reply the
merge loop silently drops. -/
def emptyOkOutcome : InsertOutcome → Bool
  | .result ⟨none, none⟩ => true
  | .result ⟨none, some []⟩ => true
  | _ => false

/-- The assignment lookup succeeds (does not throw) for every word of the
batch. -/
def findsOk (assignments : JVal) (words : List NewWord) : Bool :=
  words.all fun w =>
    match jsFindAssignment assignments w.word with
    | .ok _ => true
    | .error _ => false

/-- Total number of accumulated outcomes. -/
def totalOutcomes (acc : BatchResults) : Nat :=
  acc.added.length + acc.skipped.length + acc.errors.length

/-- A word is present in the ideal store's state. -/
def presentWord (st : List Entry) (w : String) : Bool :=
  st.any (fun e => e.word == w)

/-! ### Basic lemmas about the merge loop -/

theorem processWords_nil {σ : Type} (store : Entry → σ → InsertOutcome × σ)
    (a : JVal) (p : BatchResults × σ) :
    processWords store a [] p = p := rfl

theorem processWords_cons {σ : Type} (store : Entry → σ → InsertOutcome × σ)
    (a : JVal) (w : NewWord) (ws : List NewWord) (p : BatchResults × σ) :
    processWords store a (w :: ws) p
      = processWords store a ws (processWord store a w p.1 p.2) := rfl

theorem totalOutcomes_classifyInsert (w : String) (acc : BatchResults)
    (out : InsertOutcome) (h : contractOk out = true) :
    totalOutcomes (classifyInsert w acc out) = totalOutcomes acc + 1 := by
  rcases out with ⟨err, data⟩ | msg
  · rcases err with _ | e
    · rcases data with _ | ⟨_ | ⟨d, ds⟩⟩ <;>
        simp_all [contractOk, classifyInsert, totalOutcomes] <;> omega
    · by_cases hc : (e.code == "23505" || jsIncludes e.message "duplicate") = true <;>
        simp_all [classifyInsert, totalOutcomes] <;> omega
  · simp [classifyInsert, totalOutcomes]; omega

theorem totalOutcomes_processWord {σ : Type} (store : Entry → σ → InsertOutcome × σ)
    (hcontract : ∀ e s, contractOk (store e s).1 = true)
    (a : JVal) (w : NewWord) (acc : BatchResults) (st : σ) :
    totalOutcomes (processWord store a w acc st).1 = totalOutcomes acc + 1 := by
  rcases hfind : jsFindAssignment a w.word with msg | found
  · simp [processWord, hfind, totalOutcomes]; omega
  · rcases hst : store (builtEntry found w) st with ⟨out, st1⟩
    have := hcontract (builtEntry found w) st
    rw [hst] at this
    simp [processWord, hfind, hst, totalOutcomes_classifyInsert w.word acc out this]

theorem totalOutcomes_processWords {σ : Type} (store : Entry → σ → InsertOutcome × σ)
    (hcontract : ∀ e s, contractOk (store e s).1 = true)
    (a : JVal) (words : List NewWord) :
    ∀ p : BatchResults × σ,
      totalOutcomes (processWords store a words p).1
        = totalOutcomes p.1 + words.length := by
  induction words with
  | nil => intro p; simp [processWords_nil]
  | cons w ws ih =>
    intro p
    rw [processWords_cons, ih]
    rw [totalOutcomes_processWord store hcontract a w p.1 p.2]
    simp [List.length_cons]
    omega

theorem totalOutcomes_processBatch {σ : Type} (store : Entry → σ → InsertOutcome × σ)
    (hcontract : ∀ e s, contractOk (store e s).1 = true)
    (a : JVal) (words : List NewWord) (st : σ) :
    totalOutcomes (processBatch store a words st).1 = words.length := by
  unfold processBatch
  rw [totalOutcomes_processWords store hcontract]
  simp [totalOutcomes]

/-- Inversion of a 201 reply of the bulk route: the response's counts are
the lengths of the merge loop's outcome lists, and `totalSent` is the
batch length. -/
theorem bulkHandler_ok_inv {σ : Type}
    (gen : List NewWord → List JVal → Option String) (parse : String → Option JVal)
    (store : Entry → σ → InsertOutcome × σ)
    (groupsRead : Option (List JVal)) (words : List NewWord) (st : σ)
    (resp : BulkResponse) (st1 : σ)
    (hok : bulkHandler gen parse store groupsRead words st = (.ok resp, st1)) :
    resp.addedCount
        = (processBatch store (getGroupNamesAndSentences gen parse words
            (extractExistingGroups groupsRead)) words st).1.added.length
      ∧ resp.skippedCount
        = (processBatch store (getGroupNamesAndSentences gen parse words
            (extractExistingGroups groupsRead)) words st).1.skipped.length
      ∧ resp.errorCount
        = (processBatch store (getGroupNamesAndSentences gen parse words
            (extractExistingGroups groupsRead)) words st).1.errors.length
      ∧ resp.totalSent = words.length
      ∧ st1 = (processBatch store (getGroupNamesAndSentences gen parse words
            (extractExistingGroups groupsRead)) words st).2 := by
  unfold bulkHandler at hok
  rcases hp : processBatch store (getGroupNamesAndSentences gen parse words
      (extractExistingGroups groupsRead)) words st with ⟨results, st2⟩
  by_cases hw : words.isEmpty = true
  · simp [hw] at hok
  · simp only [hw, Bool.false_eq_true, if_false, hp] at hok
    rcases hA : getGroupNamesAndSentences gen parse words (extractExistingGroups groupsRead)
      with _ | b | n | s | xs | fs
    all_goals rw [hA] at hok
    all_goals simp only [Prod.mk.injEq] at hok
    · exact absurd hok.1 (by simp)
    all_goals
      obtain ⟨h1, h2⟩ := hok
      injection h1 with h1
      subst h1
      subst h2
      simp [hp]

/-! ### Claim C1 -/

/-- C1: for every batch the bulk endpoint processes to a 201 response,
provided the store honours the gateway contract (no silent no-error
empty replies), each submitted word lands in exactly one of the three
outcome lists, so `addedCount + skippedCount + errorCount = totalSent`. -/
theorem bulk_outcome_partition {σ : Type}
    (gen : List NewWord → List JVal → Option String) (parse : String → Option JVal)
    (store : Entry → σ → InsertOutcome × σ)
    (hcontract : ∀ e s, contractOk (store e s).1 = true)
    (groupsRead : Option (List JVal)) (words : List NewWord) (st : σ)
    (resp : BulkResponse) (st1 : σ)
    (hok : bulkHandler gen parse store groupsRead words st = (.ok resp, st1)) :
    resp.addedCount + resp.skippedCount + resp.errorCount = resp.totalSent := by
  obtain ⟨ha, hs, he, ht, -⟩ :=
    bulkHandler_ok_inv gen parse store groupsRead words st resp st1 hok
  have hsum := totalOutcomes_processBatch store hcontract
    (getGroupNamesAndSentences gen parse words (extractExistingGroups groupsRead)) words st
  simp only [totalOutcomes] at hsum
  rw [ha, hs, he, ht]
  exact hsum

/-- Witness for C1 at a concrete input: a one-word batch against a store
that fails every insert with a non-duplicate error. -/
theorem bulk_outcome_partition_witness :
    ∃ resp : BulkResponse,
      bulkHandler (fun _ _ => none) (fun _ => none)
        (fun (_ : Entry) (s : Unit) => (.result ⟨some ⟨"E", "boom"⟩, none⟩, s))
        none [⟨"serene", "calm", none⟩] () = (.ok resp, ())
      ∧ resp.addedCount + resp.skippedCount + resp.errorCount = resp.totalSent := by
  refine ⟨_, rfl, ?_⟩
  exact bulk_outcome_partition (fun _ _ => none) (fun _ => none)
    (fun (_ : Entry) (s : Unit) => (.result ⟨some ⟨"E", "boom"⟩, none⟩, s))
    (fun _ _ => rfl) none [⟨"serene", "calm", none⟩] () _ () rfl

/-! ### Claim C8 -/

/-- C8: one iteration of the per-word merge loop appends its word to at
most one of the three outcome lists — the accumulator is unchanged, or
exactly one list is extended by one element; and when the insertion
reports no error but a null or empty row set, the accumulator is
unchanged (the word lands in no list at all). -/
theorem merge_step_at_most_one {σ : Type} (store : Entry → σ → InsertOutcome × σ)
    (a : JVal) (w : NewWord) (acc : BatchResults) (st : σ) :
    ((processWord store a w acc st).1 = acc
      ∨ (∃ e, (processWord store a w acc st).1 = { acc with added := acc.added ++ [e] })
      ∨ (processWord store a w acc st).1 = { acc with skipped := acc.skipped ++ [w.word] }
      ∨ (∃ m, (processWord store a w acc st).1
            = { acc with errors := acc.errors ++ [⟨w.word, m⟩] }))
    ∧ (∀ found, jsFindAssignment a w.word = .ok found →
        emptyOkOutcome (store (builtEntry found w) st).1 = true →
        processWord store a w acc st = (acc, (store (builtEntry found w) st).2)) := by
  constructor
  · rcases hfind : jsFindAssignment a w.word with msg | found
    · exact .inr (.inr (.inr ⟨msg, by simp [processWord, hfind]⟩))
    · rcases hst : store (builtEntry found w) st with ⟨out, st1⟩
      have hpw : (processWord store a w acc st).1 = classifyInsert w.word acc out := by
        simp [processWord, hfind, hst]
      rcases out with ⟨err, data⟩ | msg
      · rcases err with _ | e
        · rcases data with _ | ⟨_ | ⟨d, ds⟩⟩
          · exact .inl (by simp [hpw, classifyInsert])
          · exact .inl (by simp [hpw, classifyInsert])
          · exact .inr (.inl ⟨d, by simp [hpw, classifyInsert]⟩)
        · by_cases hc : (e.code == "23505" || jsIncludes e.message "duplicate") = true
          · exact .inr (.inr (.inl (by simp [hpw, classifyInsert, hc])))
          · exact .inr (.inr (.inr ⟨e.message, by simp [hpw, classifyInsert, hc]⟩))
      · exact .inr (.inr (.inr ⟨msg, by simp [hpw, classifyInsert]⟩))
  · intro found hfind hempty
    rcases hst : store (builtEntry found w) st with ⟨out, st1⟩
    rw [hst] at hempty
    simp only at hempty
    rcases out with ⟨err, data⟩ | msg
    · rcases err with _ | e
      · rcases data with _ | ⟨_ | ⟨d, ds⟩⟩ <;>
          simp_all [processWord, hfind, hst, classifyInsert, emptyOkOutcome]
      · simp [emptyOkOutcome] at hempty
    · simp [emptyOkOutcome] at hempty

/-- Witness for C8: a store replying no-error with an empty row set; the
merge step leaves the accumulator untouched. -/
theorem merge_step_at_most_one_witness :
    jsFindAssignment (JVal.jarr []) (NewWord.word ⟨"x", "m", none⟩) = .ok none
    ∧ emptyOkOutcome ((fun (_ : Entry) (s : Unit) => (InsertOutcome.result ⟨none, some []⟩, s))
        (builtEntry none ⟨"x", "m", none⟩) ()).1 = true
    ∧ processWord (fun (_ : Entry) (s : Unit) => (InsertOutcome.result ⟨none, some []⟩, s))
        (JVal.jarr []) ⟨"x", "m", none⟩ ⟨[], [], []⟩ ()
      = (⟨[], [], []⟩, ((fun (_ : Entry) (s : Unit) => (InsertOutcome.result ⟨none, some []⟩, s))
            (builtEntry none ⟨"x", "m", none⟩) ()).2) :=
  ⟨rfl, rfl,
    (merge_step_at_most_one (fun (_ : Entry) (s : Unit) => (InsertOutcome.result ⟨none, some []⟩, s))
      (JVal.jarr []) ⟨"x", "m", none⟩ ⟨[], [], []⟩ ()).2 none rfl rfl⟩

/-! ### Claim C9 -/

/-- C9: an insert error is classified as a duplicate (word appended to
`skipped`) exactly when `error.code === '23505'` or the message contains
the substring `'duplicate'`; in particular a non-unique-constraint
failure whose message mentions "duplicate" is reported as skipped. -/
theorem duplicate_classification_iff (w : String) (acc : BatchResults) (code msg : String)
    (d : Option (List Entry)) :
    (classifyInsert w acc (.result ⟨some ⟨code, msg⟩, d⟩)
        = { acc with skipped := acc.skipped ++ [w] }
      ↔ (code = "23505" ∨ jsIncludes msg "duplicate" = true))
    ∧ classifyInsert w acc (.result ⟨some ⟨"XX000", "update failed: duplicate data detected"⟩, d⟩)
        = { acc with skipped := acc.skipped ++ [w] } := by
  constructor
  · constructor
    · intro h
      by_cases hc : (code == "23505" || jsIncludes msg "duplicate") = true
      · simpa [Bool.or_eq_true, beq_iff_eq] using hc
      · exfalso
        rcases acc with ⟨ad, sk, er⟩
        simp [classifyInsert, hc, BatchResults.mk.injEq] at h
    · intro h
      have hc : (code == "23505" || jsIncludes msg "duplicate") = true := by
        rcases h with h | h <;> simp [h]
      simp [classifyInsert, hc]
  · have hinc : jsIncludes "update failed: duplicate data detected" "duplicate" = true := by
      decide
    simp [classifyInsert, hinc]

/-- Witness for C9 at a concrete classification. -/
theorem duplicate_classification_iff_witness :
    (classifyInsert "w" ⟨[], [], []⟩ (.result ⟨some ⟨"23505", "x"⟩, none⟩)
        = { added := [], skipped := ["w"], errors := ([] : List ErrRec) }
      ↔ ("23505" = "23505" ∨ jsIncludes "x" "duplicate" = true))
    ∧ classifyInsert "w" ⟨[], [], []⟩
        (.result ⟨some ⟨"XX000", "update failed: duplicate data detected"⟩, none⟩)
        = { added := [], skipped := ["w"], errors := ([] : List ErrRec) } :=
  duplicate_classification_iff "w" ⟨[], [], []⟩ "23505" "x" none

/-! ### Claim C4 -/

/-- C4: a duplicate-conflict insert failure appends the word to `skipped`
(never to `errors`), any other insert failure appends `{word, message}`
to `errors`, and in both cases the loop simply continues with the rest of
the batch. -/
theorem insert_failure_handling {σ : Type} (store : Entry → σ → InsertOutcome × σ)
    (a : JVal) (nw : NewWord) (rest : List NewWord) (p : BatchResults × σ)
    (w : String) (acc : BatchResults) (code msg : String) (d : Option (List Entry)) :
    ((code = "23505" ∨ jsIncludes msg "duplicate" = true) →
        classifyInsert w acc (.result ⟨some ⟨code, msg⟩, d⟩)
          = { acc with skipped := acc.skipped ++ [w] })
    ∧ ((code ≠ "23505" ∧ jsIncludes msg "duplicate" = false) →
        classifyInsert w acc (.result ⟨some ⟨code, msg⟩, d⟩)
          = { acc with errors := acc.errors ++ [⟨w, msg⟩] })
    ∧ processWords store a (nw :: rest) p
        = processWords store a rest (processWord store a nw p.1 p.2) := by
  refine ⟨?_, ?_, processWords_cons store a nw rest p⟩
  · intro h
    have hc : (code == "23505" || jsIncludes msg "duplicate") = true := by
      rcases h with h | h <;> simp [h]
    simp [classifyInsert, hc]
  · rintro ⟨h1, h2⟩
    have hc : (code == "23505" || jsIncludes msg "duplicate") = false := by
      simp [h1, h2]
    simp [classifyInsert, hc]

/-- Witness for C4: a duplicate conflict, a generic failure, and the
loop continuing past both. -/
theorem insert_failure_handling_witness :
    classifyInsert "w" ⟨[], [], []⟩ (.result ⟨some ⟨"23505", "dup"⟩, none⟩)
        = { added := [], skipped := ["w"], errors := ([] : List ErrRec) }
    ∧ classifyInsert "w" ⟨[], [], []⟩ (.result ⟨some ⟨"42P01", "relation missing"⟩, none⟩)
        = { added := [], skipped := [], errors := [⟨"w", "relation missing"⟩] }
    ∧ processWords (fun (_ : Entry) (s : Unit) => (InsertOutcome.thrown "x", s))
        (JVal.jarr []) [⟨"a", "m", none⟩, ⟨"b", "m", none⟩] (⟨[], [], []⟩, ())
      = processWords (fun (_ : Entry) (s : Unit) => (InsertOutcome.thrown "x", s))
          (JVal.jarr []) [⟨"b", "m", none⟩]
          (processWord (fun (_ : Entry) (s : Unit) => (InsertOutcome.thrown "x", s))
            (JVal.jarr []) ⟨"a", "m", none⟩ ⟨[], [], []⟩ ()) :=
  ⟨(insert_failure_handling (fun (_ : Entry) (s : Unit) => (InsertOutcome.thrown "x", s))
      (JVal.jarr []) ⟨"a", "m", none⟩ [] (⟨[], [], []⟩, ()) "w" ⟨[], [], []⟩ "23505" "dup" none).1
      (Or.inl rfl),
   (insert_failure_handling (fun (_ : Entry) (s : Unit) => (InsertOutcome.thrown "x", s))
      (JVal.jarr []) ⟨"a", "m", none⟩ [] (⟨[], [], []⟩, ()) "w" ⟨[], [], []⟩ "42P01"
      "relation missing" none).2.1 ⟨by decide, by decide⟩,
   (insert_failure_handling (fun (_ : Entry) (s : Unit) => (InsertOutcome.thrown "x", s))
      (JVal.jarr []) ⟨"a", "m", none⟩ [⟨"b", "m", none⟩] (⟨[], [], []⟩, ()) "w" ⟨[], [], []⟩
      "23505" "dup" none).2.2⟩

/-! ### Claim C2 -/

/-- C2 (divergence): when the enrichment call fails, the catch branch of
`getGroupNamesAndSentences` returns a full-length fallback array, so
`aiProcessingUsed = assignments.length > 0` evaluates to `true`, not the
`false` the specification states; the added entries do carry null
`group_name` and `sentence`. -/
theorem enrichment_failure_flag_divergence :
    ∃ resp : BulkResponse,
      bulkHandler (fun _ _ => none) (fun _ => none) idealInsert (some [])
        [⟨"serene", "calm and peaceful", none⟩] []
        = (.ok resp, [⟨"serene", "calm and peaceful", [], JVal.jnull, JVal.jnull⟩])
      ∧ resp.aiProcessingUsed = true
      ∧ resp.added = [⟨"serene", "calm and peaceful", [], JVal.jnull, JVal.jnull⟩] :=
  ⟨⟨1, 1, 0, 0, true, [⟨"serene", "calm and peaceful", [], JVal.jnull, JVal.jnull⟩], [], []⟩,
    rfl, rfl, rfl⟩

/-! ### Claim C3 -/

/-- C3 (counterexample): a successfully parsed reply that is not an array
(here the JSON object `{}`) is returned verbatim by
`getGroupNamesAndSentences`, not replaced by the total fallback. -/
theorem nonarray_parse_not_fallback :
    getGroupNamesAndSentences (fun _ _ => some "not an array")
        (fun _ => some (JVal.jobj [])) [⟨"serene", "calm", none⟩] []
      = JVal.jobj []
    ∧ getGroupNamesAndSentences (fun _ _ => some "not an array")
        (fun _ => some (JVal.jobj [])) [⟨"serene", "calm", none⟩] []
      ≠ fallbackAssignments [⟨"serene", "calm", none⟩] := by
  constructor
  · rfl
  · show JVal.jobj [] ≠ fallbackAssignments [⟨"serene", "calm", none⟩]
    simp [fallbackAssignments]

/-- Finding a word of the batch inside the fallback array yields its
null assignment object. -/
theorem jsFindByWord_fallback (ws : List NewWord) (target : String)
    (hmem : ∃ w ∈ ws, w.word = target) :
    jsFindByWord (ws.map fun w =>
        JVal.jobj [("word", .jstr w.word), ("group_name", .jnull), ("sentence", .jnull)]) target
      = .ok (some (JVal.jobj
          [("word", .jstr target), ("group_name", .jnull), ("sentence", .jnull)])) := by
  induction ws with
  | nil => simp at hmem
  | cons h t ih =>
    by_cases hw : h.word = target
    · subst hw
      simp [jsFindByWord, objField, lookupField, isWordMatch]
    · obtain ⟨w, hwmem, hweq⟩ := hmem
      rcases List.mem_cons.mp hwmem with rfl | htail
      · exact absurd hweq hw
      · have hne : (h.word == target) = false := by simp [hw]
        simp [jsFindByWord, objField, lookupField, isWordMatch, hne]
        exact ih ⟨w, htail, hweq⟩

/-- C3 (amended): if the enrichment call fails or parsing of the
code-fence-stripped reply fails, the engine returns the total fallback,
which maps every requested word to a null group name and null sentence;
a successfully parsed non-array value, however, is returned verbatim
(see the counterexample). -/
theorem enrichment_total_fallback
    (gen : List NewWord → List JVal → Option String) (parse : String → Option JVal)
    (words : List NewWord) (groups : List JVal)
    (hfail : gen words groups = none
      ∨ ∃ raw, gen words groups = some raw ∧ parse (cleanUpResponse raw) = none) :
    getGroupNamesAndSentences gen parse words groups = fallbackAssignments words
    ∧ ∀ w ∈ words,
        jsFindAssignment (fallbackAssignments words) w.word
          = .ok (some (JVal.jobj
              [("word", .jstr w.word), ("group_name", .jnull), ("sentence", .jnull)])) := by
  constructor
  · rcases hfail with h | ⟨raw, h1, h2⟩
    · simp [getGroupNamesAndSentences, h]
    · simp [getGroupNamesAndSentences, h1, h2]
  · intro w hw
    show jsFindAssignment (JVal.jarr _) w.word = _
    simp only [jsFindAssignment]
    exact jsFindByWord_fallback words w.word ⟨w, hw, rfl⟩

/-- Witness for C3's amended claim, with a failing enrichment call. -/
theorem enrichment_total_fallback_witness :
    getGroupNamesAndSentences (fun _ _ => none) (fun _ => none) [⟨"serene", "calm", none⟩] []
      = fallbackAssignments [⟨"serene", "calm", none⟩]
    ∧ ∀ w ∈ [(⟨"serene", "calm", none⟩ : NewWord)],
        jsFindAssignment (fallbackAssignments [(⟨"serene", "calm", none⟩ : NewWord)]) w.word
          = .ok (some (JVal.jobj
              [("word", .jstr w.word), ("group_name", .jnull), ("sentence", .jnull)])) :=
  enrichment_total_fallback (fun _ _ => none) (fun _ => none)
    [⟨"serene", "calm", none⟩] [] (Or.inl rfl)

/-! ### Claim C7 -/

/-- For a non-empty batch, the final store state of the bulk route is the
state the merge loop leaves, whatever reply is produced. -/
theorem bulkHandler_snd {σ : Type}
    (gen : List NewWord → List JVal → Option String) (parse : String → Option JVal)
    (store : Entry → σ → InsertOutcome × σ)
    (groupsRead : Option (List JVal)) (words : List NewWord) (st : σ)
    (hw : words ≠ []) :
    (bulkHandler gen parse store groupsRead words st).2
      = (processBatch store (getGroupNamesAndSentences gen parse words
          (extractExistingGroups groupsRead)) words st).2 := by
  have hne : words.isEmpty = false := by simp [List.isEmpty_iff, hw]
  unfold bulkHandler
  simp only [hne, Bool.false_eq_true, if_false]
  rcases hp : processBatch store (getGroupNamesAndSentences gen parse words
      (extractExistingGroups groupsRead)) words st with ⟨results, st2⟩
  rcases hA : getGroupNamesAndSentences gen parse words (extractExistingGroups groupsRead)
    with _ | b | n | s | xs | fs
  all_goals rw [hA] at hp

/-- For a non-empty batch, the bulk route never answers with the 400
invalid-input reply. -/
theorem bulkHandler_not_badRequest {σ : Type}
    (gen : List NewWord → List JVal → Option String) (parse : String → Option JVal)
    (store : Entry → σ → InsertOutcome × σ)
    (groupsRead : Option (List JVal)) (words : List NewWord) (st : σ)
    (hw : words ≠ []) :
    (bulkHandler gen parse store groupsRead words st).1 ≠ BulkReply.badRequest := by
  have hne : words.isEmpty = false := by simp [List.isEmpty_iff, hw]
  unfold bulkHandler
  simp only [hne, Bool.false_eq_true, if_false]
  rcases hp : processBatch store (getGroupNamesAndSentences gen parse words
      (extractExistingGroups groupsRead)) words st with ⟨results, st2⟩
  rcases hA : getGroupNamesAndSentences gen parse words (extractExistingGroups groupsRead)
    with _ | b | n | s | xs | fs
  all_goals rw [hA] at hp
  all_goals simp [hp]

/-- C7: when the read of existing group labels fails (`data` null), the
route behaves exactly as with a successful empty read: the label set is
empty, the merge loop still runs against the store, and the request is
not rejected. -/
theorem label_read_failure_empty_set {σ : Type}
    (gen : List NewWord → List JVal → Option String) (parse : String → Option JVal)
    (store : Entry → σ → InsertOutcome × σ) (words : List NewWord) (st : σ)
    (hw : words ≠ []) :
    bulkHandler gen parse store none words st
      = bulkHandler gen parse store (some []) words st
    ∧ (bulkHandler gen parse store none words st).2
      = (processBatch store (getGroupNamesAndSentences gen parse words []) words st).2
    ∧ (bulkHandler gen parse store none words st).1 ≠ BulkReply.badRequest :=
  ⟨rfl, bulkHandler_snd gen parse store none words st hw,
    bulkHandler_not_badRequest gen parse store none words st hw⟩

/-- Witness for C7 at a concrete one-word batch. -/
theorem label_read_failure_empty_set_witness :
    bulkHandler (fun _ _ => none) (fun _ => none) idealInsert none
        [⟨"serene", "calm", none⟩] []
      = bulkHandler (fun _ _ => none) (fun _ => none) idealInsert (some [])
          [⟨"serene", "calm", none⟩] []
    ∧ (bulkHandler (fun _ _ => none) (fun _ => none) idealInsert none
        [⟨"serene", "calm", none⟩] []).2
      = (processBatch idealInsert (getGroupNamesAndSentences (fun _ _ => none) (fun _ => none)
          [⟨"serene", "calm", none⟩] []) [⟨"serene", "calm", none⟩] []).2
    ∧ (bulkHandler (fun _ _ => none) (fun _ => none) idealInsert none
        [⟨"serene", "calm", none⟩] []).1 ≠ BulkReply.badRequest :=
  label_read_failure_empty_set (fun _ _ => none) (fun _ => none) idealInsert
    [⟨"serene", "calm", none⟩] [] (by simp)

/-! ### Claim C6 -/

/-- C6: on a 120-word batch with chunk size 50, the three sequential
calls with offsets 0, 50 and 100 report `hasMore = true, true, false`,
`nextOffset = 50, 100, null`, and their three slices concatenate back to
the whole batch — every word is processed exactly once. -/
theorem chunking_three_calls {α : Type} (ins : List α → Option (List α))
    (hins : ∀ b, ins b = some b) (words : List α) (hlen : words.length = 120) :
    chunkBulk ins words 0
      = .ok ⟨50, 50, 120, true, some 50, (words.drop 0).take 50⟩
    ∧ chunkBulk ins words 50
      = .ok ⟨50, 100, 120, true, some 100, (words.drop 50).take 50⟩
    ∧ chunkBulk ins words 100
      = .ok ⟨20, 120, 120, false, none, (words.drop 100).take 50⟩
    ∧ (words.drop 0).take 50 ++ ((words.drop 50).take 50 ++ (words.drop 100).take 50)
      = words := by
  have hemp : ∀ (l : List α), l.length ≠ 0 → l.isEmpty = false := by
    intro l hl
    cases l with
    | nil => simp at hl
    | cons a t => rfl
  have hwne : words.isEmpty = false := hemp words (by omega)
  have hb0 : ((words.drop 0).take 50).length = 50 := by
    rw [List.length_take, List.length_drop, hlen]; omega
  have hb50 : ((words.drop 50).take 50).length = 50 := by
    rw [List.length_take, List.length_drop, hlen]; omega
  have hb100 : ((words.drop 100).take 50).length = 20 := by
    rw [List.length_take, List.length_drop, hlen]; omega
  have hbne0 : ((words.drop 0).take 50).isEmpty = false := hemp _ (by omega)
  have hbne50 : ((words.drop 50).take 50).isEmpty = false := hemp _ (by omega)
  have hbne100 : ((words.drop 100).take 50).isEmpty = false := hemp _ (by omega)
  refine ⟨?_, ?_, ?_, ?_⟩
  · simp only [chunkBulk, hwne, Bool.false_eq_true, if_false, hbne0, hins]
    simp [hb0, hlen]
  · simp only [chunkBulk, hwne, Bool.false_eq_true, if_false, hbne50, hins]
    simp [hb50, hlen]
  · simp only [chunkBulk, hwne, Bool.false_eq_true, if_false, hbne100, hins]
    simp [hb100, hlen]
  · have t1 := List.take_add words 50 50
    have t2 := List.take_add words 100 50
    norm_num at t1 t2
    have t3 : words.take 150 = words := List.take_of_length_le (by omega)
    rw [List.drop_zero, ← List.append_assoc, ← t1, ← t2, t3]

/-- Witness for C6 on the concrete batch `List.range 120` with a store
that echoes every inserted slice. -/
theorem chunking_three_calls_witness :
    chunkBulk (fun b => some b) (List.range 120) 0
      = .ok ⟨50, 50, 120, true, some 50, ((List.range 120).drop 0).take 50⟩
    ∧ chunkBulk (fun b => some b) (List.range 120) 50
      = .ok ⟨50, 100, 120, true, some 100, ((List.range 120).drop 50).take 50⟩
    ∧ chunkBulk (fun b => some b) (List.range 120) 100
      = .ok ⟨20, 120, 120, false, none, ((List.range 120).drop 100).take 50⟩
    ∧ ((List.range 120).drop 0).take 50
        ++ (((List.range 120).drop 50).take 50 ++ ((List.range 120).drop 100).take 50)
      = List.range 120 :=
  chunking_three_calls (fun b => some b) (fun _ => rfl) (List.range 120) (by simp)

/-! ### Claim C5 -/

theorem presentWord_idealInsert (e : Entry) (st : List Entry) (w : String)
    (h : presentWord st w = true) :
    presentWord (idealInsert e st).2 w = true := by
  unfold idealInsert
  by_cases hc : (st.any fun e2 => e2.word == e.word) = true
  · simpa [hc] using h
  · simp only [hc, Bool.false_eq_true, if_false]
    simp only [presentWord, List.any_append] at h ⊢
    simp [h]

theorem idealInsert_makes_present (e : Entry) (st : List Entry) :
    presentWord (idealInsert e st).2 e.word = true := by
  unfold idealInsert
  by_cases hc : (st.any fun e2 => e2.word == e.word) = true
  · simp [hc, presentWord]
  · simp only [hc, Bool.false_eq_true, if_false]
    simp [presentWord, List.any_append]

theorem presentWord_processWord (a : JVal) (nw : NewWord) (acc : BatchResults)
    (st : List Entry) (w : String) (h : presentWord st w = true) :
    presentWord (processWord idealInsert a nw acc st).2 w = true := by
  rcases hfind : jsFindAssignment a nw.word with msg | found
  · simpa [processWord, hfind] using h
  · rcases hst : idealInsert (builtEntry found nw) st with ⟨out, st1⟩
    have hpre := presentWord_idealInsert (builtEntry found nw) st w h
    rw [hst] at hpre
    simpa [processWord, hfind, hst] using hpre

theorem presentWord_processWords (a : JVal) (words : List NewWord) :
    ∀ (p : BatchResults × List Entry) (w : String), presentWord p.2 w = true →
      presentWord (processWords idealInsert a words p).2 w = true := by
  induction words with
  | nil => intro p w h; simpa [processWords_nil] using h
  | cons hd t ih =>
    intro p w h
    rw [processWords_cons]
    exact ih _ w (presentWord_processWord a hd p.1 p.2 w h)

theorem processWord_makes_present (a : JVal) (nw : NewWord) (acc : BatchResults)
    (st : List Entry) (f : Option JVal) (hf : jsFindAssignment a nw.word = .ok f) :
    presentWord (processWord idealInsert a nw acc st).2 nw.word = true := by
  rcases hst : idealInsert (builtEntry f nw) st with ⟨out, st1⟩
  have hpre := idealInsert_makes_present (builtEntry f nw) st
  rw [hst] at hpre
  simpa [processWord, hf, hst] using hpre

theorem findsOk_iff (a : JVal) (words : List NewWord) :
    findsOk a words = true
      ↔ ∀ w ∈ words, ∃ f, jsFindAssignment a w.word = .ok f := by
  unfold findsOk
  rw [List.all_eq_true]
  constructor
  · intro h w hw
    have hmatch := h w hw
    rcases hfa : jsFindAssignment a w.word with m | f
    · rw [hfa] at hmatch; simp at hmatch
    · exact ⟨f, rfl⟩
  · intro h w hw
    obtain ⟨f, hf⟩ := h w hw
    rw [hf]

theorem all_words_present_after (a : JVal) (words : List NewWord)
    (hfind : ∀ w ∈ words, ∃ f, jsFindAssignment a w.word = .ok f) :
    ∀ (p : BatchResults × List Entry), ∀ nw ∈ words,
      presentWord (processWords idealInsert a words p).2 nw.word = true := by
  induction words with
  | nil => intro p nw h; simp at h
  | cons hd t ih =>
    intro p nw hnw
    rw [processWords_cons]
    rcases List.mem_cons.mp hnw with rfl | hmem
    · obtain ⟨f, hf⟩ := hfind nw (List.mem_cons_self nw t)
      exact presentWord_processWords a t _ nw.word
        (processWord_makes_present a nw p.1 p.2 f hf)
    · exact ih (fun w hw => hfind w (List.mem_cons_of_mem hd hw)) _ nw hmem

theorem processWords_all_present (a : JVal) (words : List NewWord)
    (hfind : ∀ w ∈ words, ∃ f, jsFindAssignment a w.word = .ok f) :
    ∀ (acc : BatchResults) (st : List Entry),
      (∀ w ∈ words, presentWord st w.word = true) →
      processWords idealInsert a words (acc, st)
        = ({ acc with skipped := acc.skipped ++ words.map (fun w => w.word) }, st) := by
  induction words with
  | nil => intro acc st _; simp [processWords_nil]
  | cons hd t ih =>
    intro acc st hpres
    rw [processWords_cons]
    obtain ⟨f, hf⟩ := hfind hd (List.mem_cons_self hd t)
    have hp : presentWord st hd.word = true := hpres hd (List.mem_cons_self hd t)
    have hc : (st.any fun e2 => e2.word == (builtEntry f hd).word) = true := hp
    have hstep : processWord idealInsert a hd acc st
        = ({ acc with skipped := acc.skipped ++ [hd.word] }, st) := by
      unfold processWord
      rw [hf]
      simp [idealInsert, hc, classifyInsert]
    rw [hstep]
    rw [ih (fun w hw => hfind w (List.mem_cons_of_mem hd hw))
      { acc with skipped := acc.skipped ++ [hd.word] } st
      (fun w hw => hpres w (List.mem_cons_of_mem hd hw))]
    simp

/-- When the engine produced an array of assignments, the 201 response
is exactly the summary of the merge loop's outcome lists. -/
theorem bulkHandler_arr {σ : Type}
    (gen : List NewWord → List JVal → Option String) (parse : String → Option JVal)
    (store : Entry → σ → InsertOutcome × σ)
    (groupsRead : Option (List JVal)) (words : List NewWord) (st : σ) (xs : List JVal)
    (hw : words ≠ [])
    (hA : getGroupNamesAndSentences gen parse words (extractExistingGroups groupsRead)
        = .jarr xs) :
    bulkHandler gen parse store groupsRead words st
      = (.ok { totalSent := words.length
             , addedCount := (processBatch store (.jarr xs) words st).1.added.length
             , skippedCount := (processBatch store (.jarr xs) words st).1.skipped.length
             , errorCount := (processBatch store (.jarr xs) words st).1.errors.length
             , aiProcessingUsed := jsLengthPositive (.jarr xs)
             , added := (processBatch store (.jarr xs) words st).1.added
             , skipped := (processBatch store (.jarr xs) words st).1.skipped
             , errors := (processBatch store (.jarr xs) words st).1.errors }
        , (processBatch store (.jarr xs) words st).2) := by
  have hne : words.isEmpty = false := by simp [List.isEmpty_iff, hw]
  unfold bulkHandler
  simp only [hne, Bool.false_eq_true, if_false, hA]

/-- A non-empty batch whose every word's lookup succeeds forces the
assignments value to be an array. -/
theorem findsOk_arr (a : JVal) (words : List NewWord) (hw : words ≠ [])
    (h : findsOk a words = true) : ∃ xs, a = JVal.jarr xs := by
  rcases words with _ | ⟨w, ws⟩
  · exact absurd rfl hw
  · obtain ⟨f, hf⟩ := (findsOk_iff a (w :: ws)).mp h w (List.mem_cons_self w ws)
    rcases ha : a with _ | b | n | s | xs | fs
    all_goals rw [ha] at hf
    · simp [jsFindAssignment] at hf
    · simp [jsFindAssignment] at hf
    · simp [jsFindAssignment] at hf
    · simp [jsFindAssignment] at hf
    · exact ⟨xs, rfl⟩
    · simp [jsFindAssignment] at hf

/-- C5 (amended): resubmitting the same batch against the
contract-conformant store (no storage failures) yields, in the second
201 response, `addedCount = 0` and `skippedCount = totalSent =
words.length`, and leaves the persisted entries exactly as the first
submission left them — provided the per-word assignment lookup does not
throw in either run (hypotheses `h1`/`h2`: the engine's value is an
array without null elements, as it always is when enrichment fails).
Without that proviso the claim is false: see the counterexample where
the second run's AI reply parses to the non-array `{}` and every word
lands in `errors`. -/
theorem resubmission_idempotent
    (gen1 gen2 : List NewWord → List JVal → Option String)
    (parse1 parse2 : String → Option JVal)
    (gr1 gr2 : Option (List JVal)) (words : List NewWord) (st0 : List Entry)
    (hw : words ≠ [])
    (h1 : findsOk (getGroupNamesAndSentences gen1 parse1 words
        (extractExistingGroups gr1)) words = true)
    (h2 : findsOk (getGroupNamesAndSentences gen2 parse2 words
        (extractExistingGroups gr2)) words = true) :
    ∃ resp2 : BulkResponse,
      bulkHandler gen2 parse2 idealInsert gr2 words
          (bulkHandler gen1 parse1 idealInsert gr1 words st0).2
        = (.ok resp2, (bulkHandler gen1 parse1 idealInsert gr1 words st0).2)
      ∧ resp2.addedCount = 0
      ∧ resp2.skippedCount = words.length
      ∧ resp2.totalSent = words.length := by
  obtain ⟨xs2, hxs2⟩ := findsOk_arr _ words hw h2
  have hst1 : (bulkHandler gen1 parse1 idealInsert gr1 words st0).2
      = (processBatch idealInsert (getGroupNamesAndSentences gen1 parse1 words
          (extractExistingGroups gr1)) words st0).2 :=
    bulkHandler_snd gen1 parse1 idealInsert gr1 words st0 hw
  have hpres : ∀ w ∈ words,
      presentWord (bulkHandler gen1 parse1 idealInsert gr1 words st0).2 w.word = true := by
    intro w hwmem
    rw [hst1]
    exact all_words_present_after _ words ((findsOk_iff _ words).mp h1) _ w hwmem
  have hrun2 : processBatch idealInsert (JVal.jarr xs2) words
      (bulkHandler gen1 parse1 idealInsert gr1 words st0).2
      = (⟨[], words.map (fun w => w.word), []⟩,
         (bulkHandler gen1 parse1 idealInsert gr1 words st0).2) := by
    unfold processBatch
    rw [processWords_all_present (JVal.jarr xs2) words
      ((findsOk_iff _ words).mp (hxs2 ▸ h2)) ⟨[], [], []⟩ _ hpres]
    simp
  rw [bulkHandler_arr gen2 parse2 idealInsert gr2 words _ xs2 hw hxs2, hrun2]
  exact ⟨_, rfl, rfl, by simp, rfl⟩

/-- C5 (counterexample to the original claim): the same one-word batch
submitted twice with no storage failures, where the second run's AI
reply parses to the JSON object `{}`.  The non-array value is returned
verbatim by the engine, `assignments.find` throws for the word, the word
lands in `errors`, and `skippedCount = 0 ≠ 1 = totalSent`. -/
theorem resubmission_nonarray_counterexample :
    ∃ resp2 : BulkResponse,
      bulkHandler (fun _ _ => some "x") (fun _ => some (JVal.jobj [])) idealInsert none
          [⟨"serene", "calm", none⟩]
          (bulkHandler (fun _ _ => none) (fun _ => none) idealInsert none
            [⟨"serene", "calm", none⟩] []).2
        = (.ok resp2,
           (bulkHandler (fun _ _ => none) (fun _ => none) idealInsert none
             [⟨"serene", "calm", none⟩] []).2)
      ∧ resp2.addedCount = 0
      ∧ resp2.skippedCount = 0
      ∧ resp2.errorCount = 1
      ∧ resp2.totalSent = 1
      ∧ resp2.skippedCount ≠ resp2.totalSent :=
  ⟨⟨1, 0, 0, 1, false, [], [], [⟨"serene", "assignments.find is not a function"⟩]⟩,
    rfl, rfl, rfl, rfl, rfl, by decide⟩

/-- Witness for C5's amended claim: the two-word batch submitted twice,
with a failing enrichment call both times. -/
theorem resubmission_idempotent_witness :
    ∃ resp2 : BulkResponse,
      bulkHandler (fun _ _ => none) (fun _ => none) idealInsert none
          [⟨"serene", "calm", none⟩, ⟨"brisk", "quick", none⟩]
          (bulkHandler (fun _ _ => none) (fun _ => none) idealInsert none
            [⟨"serene", "calm", none⟩, ⟨"brisk", "quick", none⟩] []).2
        = (.ok resp2,
           (bulkHandler (fun _ _ => none) (fun _ => none) idealInsert none
             [⟨"serene", "calm", none⟩, ⟨"brisk", "quick", none⟩] []).2)
      ∧ resp2.addedCount = 0
      ∧ resp2.skippedCount = [⟨"serene", "calm", none⟩, (⟨"brisk", "quick", none⟩ : NewWord)].length
      ∧ resp2.totalSent = [⟨"serene", "calm", none⟩, (⟨"brisk", "quick", none⟩ : NewWord)].length :=
  resubmission_idempotent (fun _ _ => none) (fun _ _ => none) (fun _ => none) (fun _ => none)
    none none [⟨"serene", "calm", none⟩, ⟨"brisk", "quick", none⟩] []
    (by simp) rfl rfl

/-! ### Claim C10 -/

theorem addToGroups_mem_inv (acc : List (String × List GroupItem)) (key : String)
    (itr : GroupItem) (q : String × List GroupItem)
    (hq : q ∈ addToGroups acc key itr) (it : GroupItem) (hit : it ∈ q.2) :
    (∃ q0 ∈ acc, q0.1 = q.1 ∧ it ∈ q0.2) ∨ (it = itr ∧ q.1 = key) := by
  unfold addToGroups at hq
  by_cases hc : (acc.any fun p => p.1 == key) = true
  · rw [if_pos hc] at hq
    obtain ⟨p, hp, hfp⟩ := List.mem_map.mp hq
    by_cases hpk : (p.1 == key) = true
    · rw [if_pos hpk] at hfp
      subst hfp
      rcases List.mem_append.mp hit with hold | hnew
      · exact .inl ⟨p, hp, rfl, hold⟩
      · have : it = itr := by simpa using hnew
        exact .inr ⟨this, by simpa using hpk⟩
    · rw [if_neg hpk] at hfp
      subst hfp
      exact .inl ⟨p, hp, rfl, hit⟩
  · rw [if_neg hc] at hq
    rcases List.mem_append.mp hq with hacc | hlast
    · exact .inl ⟨q, hacc, rfl, hit⟩
    · have : q = (key, [itr]) := by simpa using hlast
      subst this
      exact .inr ⟨by simpa using hit, rfl⟩

theorem addToGroups_self (acc : List (String × List GroupItem)) (key : String)
    (itr : GroupItem) :
    ∃ l, (key, l) ∈ addToGroups acc key itr ∧ itr ∈ l := by
  unfold addToGroups
  by_cases hc : (acc.any fun p => p.1 == key) = true
  · rw [if_pos hc]
    obtain ⟨p, hp, hpk⟩ := List.any_eq_true.mp hc
    have hpkey : p.1 = key := by simpa using hpk
    refine ⟨p.2 ++ [itr], ?_, by simp⟩
    have : (if (p.1 == key) = true then (p.1, p.2 ++ [itr]) else p) = (key, p.2 ++ [itr]) := by
      rw [if_pos hpk, hpkey]
    rw [← this]
    exact List.mem_map_of_mem _ hp
  · rw [if_neg hc]
    exact ⟨[itr], by simp, by simp⟩

theorem addToGroups_mono (acc : List (String × List GroupItem)) (key : String)
    (itr : GroupItem) (k : String) (l : List GroupItem) (h : (k, l) ∈ acc) :
    ∃ l2, (k, l2) ∈ addToGroups acc key itr ∧ ∀ x ∈ l, x ∈ l2 := by
  unfold addToGroups
  by_cases hc : (acc.any fun p => p.1 == key) = true
  · rw [if_pos hc]
    by_cases hpk : ((k, l).1 == key) = true
    · refine ⟨l ++ [itr], ?_, fun x hx => by simp [hx]⟩
      have : (if ((k, l).1 == key) = true then ((k, l).1, (k, l).2 ++ [itr]) else (k, l))
          = (k, l ++ [itr]) := by rw [if_pos hpk]
      rw [← this]
      exact List.mem_map_of_mem _ h
    · refine ⟨l, ?_, fun x hx => hx⟩
      have : (if ((k, l).1 == key) = true then ((k, l).1, (k, l).2 ++ [itr]) else (k, l))
          = (k, l) := by rw [if_neg hpk]
      rw [← this]
      exact List.mem_map_of_mem _ h
  · rw [if_neg hc]
    exact ⟨l, List.mem_append_left _ h, fun x hx => hx⟩

theorem groupsFold_mem_inv (rows : List DbRow) :
    ∀ (acc : List (String × List GroupItem)) (q : String × List GroupItem),
      q ∈ rows.foldl (fun acc r => addToGroups acc (jsKey r.group_name) (itemOf r)) acc →
      ∀ it ∈ q.2,
        (∃ q0 ∈ acc, q0.1 = q.1 ∧ it ∈ q0.2)
        ∨ (∃ r ∈ rows, itemOf r = it ∧ jsKey r.group_name = q.1) := by
  induction rows with
  | nil => intro acc q hq it hit; exact .inl ⟨q, hq, rfl, hit⟩
  | cons r t ih =>
    intro acc q hq it hit
    rw [List.foldl_cons] at hq
    rcases ih _ q hq it hit with ⟨q0, hq0, hk, hit0⟩ | ⟨r2, hr2, hitem, hkey⟩
    · rcases addToGroups_mem_inv acc (jsKey r.group_name) (itemOf r) q0 hq0 it hit0
        with ⟨q1, hq1, hk1, hit1⟩ | ⟨hitem, hkey⟩
      · exact .inl ⟨q1, hq1, hk1.trans hk, hit1⟩
      · exact .inr ⟨r, List.mem_cons_self r t, hitem.symm, hkey.symm ▸ hk ▸ rfl⟩
    · exact .inr ⟨r2, List.mem_cons_of_mem r hr2, hitem, hkey⟩

theorem groupsFold_mono (rows : List DbRow) :
    ∀ (acc : List (String × List GroupItem)) (k : String) (l : List GroupItem),
      (k, l) ∈ acc →
      ∃ l2, (k, l2) ∈ rows.foldl
          (fun acc r => addToGroups acc (jsKey r.group_name) (itemOf r)) acc
        ∧ ∀ x ∈ l, x ∈ l2 := by
  induction rows with
  | nil => intro acc k l h; exact ⟨l, h, fun x hx => hx⟩
  | cons r t ih =>
    intro acc k l h
    rw [List.foldl_cons]
    obtain ⟨l1, hl1, hsub1⟩ := addToGroups_mono acc (jsKey r.group_name) (itemOf r) k l h
    obtain ⟨l2, hl2, hsub2⟩ := ih _ k l1 hl1
    exact ⟨l2, hl2, fun x hx => hsub2 x (hsub1 x hx)⟩

theorem groupsFold_present (rows : List DbRow) :
    ∀ (acc : List (String × List GroupItem)) (r : DbRow), r ∈ rows →
      ∃ l, (jsKey r.group_name, l) ∈ rows.foldl
          (fun acc r => addToGroups acc (jsKey r.group_name) (itemOf r)) acc
        ∧ itemOf r ∈ l := by
  induction rows with
  | nil => intro acc r h; simp at h
  | cons hd t ih =>
    intro acc r hr
    rw [List.foldl_cons]
    rcases List.mem_cons.mp hr with rfl | hmem
    · obtain ⟨l, hl, hin⟩ := addToGroups_self acc (jsKey r.group_name) (itemOf r)
      obtain ⟨l2, hl2, hsub⟩ := groupsFold_mono t _ (jsKey r.group_name) l hl
      exact ⟨l2, hl2, hsub _ hin⟩
    · exact ih _ r hmem

/-- C10: in the groups view, every table row with a non-null group name
appears (as its projection) in the list under exactly one key — its own
group name — and rows with a null group name appear under no key.  The
hypothesis is the store's uniqueness constraint on `word`. -/
theorem groups_view_partition (table : List DbRow)
    (huniq : ∀ r1 ∈ table, ∀ r2 ∈ table, r1.word = r2.word → r1 = r2) :
    (∀ r ∈ table, ∀ g, r.group_name = some g →
        ∃ l, (g, l) ∈ groupsView table ∧ itemOf r ∈ l
          ∧ ∀ p ∈ groupsView table, itemOf r ∈ p.2 → p.1 = g)
    ∧ (∀ r ∈ table, r.group_name = none →
        ∀ p ∈ groupsView table, itemOf r ∉ p.2) := by
  have hback : ∀ p ∈ groupsView table, ∀ it ∈ p.2,
      ∃ r2 ∈ fetchGroupRows table, itemOf r2 = it ∧ jsKey r2.group_name = p.1 := by
    intro p hp it hit
    rcases groupsFold_mem_inv (fetchGroupRows table) [] p hp it hit
      with ⟨q0, hq0, -, -⟩ | hfound
    · simp at hq0
    · exact hfound
  constructor
  · intro r hr g hg
    have hrrows : r ∈ fetchGroupRows table := by
      unfold fetchGroupRows
      rw [List.mem_filter]
      exact ⟨hr, by simp [hg]⟩
    obtain ⟨l, hl, hin⟩ := groupsFold_present (fetchGroupRows table) [] r hrrows
    rw [hg] at hl
    refine ⟨l, hl, hin, ?_⟩
    intro p hp hitp
    obtain ⟨r2, hr2, hitem, hkey⟩ := hback p hp (itemOf r) hitp
    have hword : r2.word = r.word := congrArg GroupItem.word hitem
    have hr2tab : r2 ∈ table := List.mem_of_mem_filter hr2
    have : r2 = r := huniq r2 hr2tab r hr hword
    subst this
    rw [← hkey, hg]
    rfl
  · intro r hr hnone p hp hitp
    obtain ⟨r2, hr2, hitem, -⟩ := hback p hp (itemOf r) hitp
    have hword : r2.word = r.word := congrArg GroupItem.word hitem
    have hr2tab : r2 ∈ table := List.mem_of_mem_filter hr2
    have heq : r2 = r := huniq r2 hr2tab r hr hword
    subst heq
    have := (List.mem_filter.mp hr2).2
    rw [hnone] at this
    simp at this

/-- Witness for C10 on a concrete three-row table. -/
theorem groups_view_partition_witness :
    (∀ r ∈ [(⟨"a", "m1", [], some "g1", none⟩ : DbRow),
            ⟨"b", "m2", [], none, none⟩,
            ⟨"c", "m3", [], some "g1", some "s"⟩], ∀ g, r.group_name = some g →
        ∃ l, (g, l) ∈ groupsView [⟨"a", "m1", [], some "g1", none⟩,
            ⟨"b", "m2", [], none, none⟩, ⟨"c", "m3", [], some "g1", some "s"⟩]
          ∧ itemOf r ∈ l
          ∧ ∀ p ∈ groupsView [⟨"a", "m1", [], some "g1", none⟩,
              ⟨"b", "m2", [], none, none⟩, ⟨"c", "m3", [], some "g1", some "s"⟩],
              itemOf r ∈ p.2 → p.1 = g)
    ∧ (∀ r ∈ [(⟨"a", "m1", [], some "g1", none⟩ : DbRow),
            ⟨"b", "m2", [], none, none⟩,
            ⟨"c", "m3", [], some "g1", some "s"⟩], r.group_name = none →
        ∀ p ∈ groupsView [⟨"a", "m1", [], some "g1", none⟩,
            ⟨"b", "m2", [], none, none⟩, ⟨"c", "m3", [], some "g1", some "s"⟩],
            itemOf r ∉ p.2) :=
  groups_view_partition
    [⟨"a", "m1", [], some "g1", none⟩, ⟨"b", "m2", [], none, none⟩,
     ⟨"c", "m3", [], some "g1", some "s"⟩]
    (by decide)

end Words
